import Mathlib

set_option maxHeartbeats 1000000
set_option maxRecDepth 1000000

/-!
Verification development for the xlbrainfuck repository.

The repository consists of a header (`xlbrainfuck.h`, read here as the unnamed
source file) defining the templated class `xl_brainfuck_env<storage_t>` with the
methods `interpret`, `translate`, `reset` and `ptroutofrange`, plus two thin
front-ends (`xlbfconsole.cpp`, `xlbftranslator.cpp`).

The shallow embedding below translates that C++ code into Lean definitions:
  * the template parameter `storage_t` becomes a `Storage` record (bit width and
    signedness); cell values are carried as raw bit patterns (`Nat < 2 ^ bits`)
    and arithmetic is performed modulo `2 ^ bits`, the two's-complement
    behaviour of the concrete C integral types;
  * the tape / pointer pair becomes an `Env` record with the pointer kept as an
    unbounded `Int` index (the C pointer may legally move outside the block);
  * the `interpret` while-loop becomes a single-iteration `step` function plus a
    fuel-indexed driver `run` (brainfuck programs need not terminate);
  * console output becomes an explicit event list, `_getch()` input becomes an
    explicit list of pending input units.
-/

/-- Bit width and signedness of the instantiated `storage_t` template parameter
(the repository instantiates integral types such as `char`, `unsigned char`,
..., `long long`). -/
structure Storage where
  bits : Nat
  signed : Bool
deriving DecidableEq

/-- Number of values representable by the storage type: `2 ^ bits`. -/
def Storage.modulus (st : Storage) : Nat := 2 ^ st.bits

/-- The mathematical integer denoted by a raw bit pattern `v` of the storage
type: two's-complement interpretation for signed types, identity for unsigned
ones.  This is also the value obtained in C when the stored value undergoes
the usual arithmetic conversions (e.g. when passed to `printf`). -/
def Storage.interp (st : Storage) (v : Nat) : Int :=
  if st.signed = true ∧ 2 ^ (st.bits - 1) ≤ v then (v : Int) - (st.modulus : Int)
  else (v : Int)

/-- The byte emitted by `printf("%c", v)`: the int value converted to
`unsigned char`, i.e. reduced modulo 256. -/
def byteOf (st : Storage) (v : Nat) : Nat := ((st.interp v) % 256).toNat

/-- The `unsigned char` instantiation, used for concrete evaluations. -/
def stU8 : Storage := ⟨8, false⟩

/-- The runtime state of `xl_brainfuck_env`: the `tape` array (cells as raw bit
patterns) and the cursor `ptr`, stored as the signed index `this->ptr - minaddr`
(the C pointer may point outside the allocated block, so the index is an
`Int`). -/
structure Env where
  tape : List Nat
  ptr : Int
deriving DecidableEq

/-- The constructor `xl_brainfuck_env(size_t tapesize)`: a zero-initialized
block of `tapesize` cells with the pointer at the start. -/
def mkEnv (tapesize : Nat) : Env := ⟨List.replicate tapesize 0, 0⟩

/-- `ptroutofrange()`: `this->ptr < this->minaddr || this->ptr > this->maxaddr`,
i.e. index `< 0` or index `> tapesize - 1`. -/
def ptroutofrange (e : Env) : Bool :=
  decide (e.ptr < 0) || decide (((e.tape.length : Int) - 1) < e.ptr)

/-- Dereference `*this->ptr` (only performed by the source after an
`in_bounds` check, so the default value is never observable). -/
def readCell (e : Env) : Nat := e.tape.getD e.ptr.toNat 0

/-- Assignment `*this->ptr = v` (only performed by the source after an
`in_bounds` check). -/
def writeCell (e : Env) (v : Nat) : Env :=
  { e with tape := e.tape.set e.ptr.toNat v }

/-- `reset()`: the loop `for (resetptr = minaddr; resetptr <= maxaddr;
resetptr++) *resetptr = 0;` zeroes every cell in place, then the pointer is
returned to `minaddr`. -/
def reset (e : Env) : Env := { tape := e.tape.map (fun _ => 0), ptr := 0 }

/-- One emitted output event: `ch b` for a single byte `b` written to the
output (as by `printf("%c", ...)`, or one literal character of a format
string), `num n` for the `:` extension's `printf("%d", ...)`. -/
inductive OutEv where
  | ch (b : Nat)
  | num (n : Int)
deriving DecidableEq

/-- Full interpreter state: environment, the index `codeptr - code`, the output
emitted so far and the input units not yet consumed by `_getch()`. -/
structure IState where
  env : Env
  pos : Nat
  out : List OutEv
  inp : List Nat
deriving DecidableEq

/-- The two error kinds the header documents: access violation and syntax
error. -/
inductive IErr where
  | accessViolation
  | syntaxError
deriving DecidableEq

/-- Result of one iteration of the `interpret` while-loop: continue with a new
state, or return 1 having printed a diagnostic. -/
inductive Step where
  | cont (s : IState)
  | halt (e : IErr) (s : IState)
deriving DecidableEq

/-- The forward bracket scan in the `'['` case of `interpret`, recursing on
the unscanned suffix of the stream: `rest` is the list of characters from
index `i` to the terminator, `unsolvedloopcount = depth`; each `'['`
increments the count, each `']'` decrements it; the index where it reaches 0
(i.e. where it is 1 before the decrement) is the match; hitting the
terminator first yields no match. -/
def findForwardAux : List Char → Nat → Nat → Option Nat
  | [], _, _ => none
  | c :: rest, i, depth =>
    if c = '[' then findForwardAux rest (i + 1) (depth + 1)
    else if c = ']' then
      if depth = 1 then some i else findForwardAux rest (i + 1) (depth - 1)
    else findForwardAux rest (i + 1) depth

/-- The forward bracket scan started at index `i` (the source starts it at
`codeptr + 1`). -/
def findForward (code : List Char) (i : Nat) (depth : Nat) : Option Nat :=
  findForwardAux (code.drop i) i depth

/-- The backward bracket scan in the `']'` case of `interpret`, counting the
scan index down from `i`: each `']'` increments `unsolvedloopcount`, each
`'['` decrements it; the index where it reaches 0 is the match; scanning past
index 0 (the source condition `codesearchptr >= code` failing) yields no
match. -/
def findBackwardNat (code : List Char) : Nat → Nat → Option Nat
  | 0, depth =>
    if code.getD 0 ' ' = '[' ∧ depth = 1 then some 0 else none
  | i + 1, depth =>
    if code.getD (i + 1) ' ' = ']' then findBackwardNat code i (depth + 1)
    else if code.getD (i + 1) ' ' = '[' then
      if depth = 1 then some (i + 1) else findBackwardNat code i (depth - 1)
    else findBackwardNat code i depth

/-- The backward bracket scan started at signed index `i` (the source starts
it at `codeptr - 1`, which is already below `code` when `codeptr` is at the
start of the stream). -/
def findBackward (code : List Char) (i : Int) (depth : Nat) : Option Nat :=
  if 0 ≤ i then findBackwardNat code i.toNat depth else none

/-- One iteration of the `while (*codeptr != 0)` loop of `interpret`, embedded
case by case from the `switch (*codeptr)`.  `run` below only calls it while
`s.pos` is inside the stream, so the `getD` default `' '` (a no-op character)
is never observable.  In the `'['` case the source reads `*this->ptr` at the
moment the match is found (`hasloopskip = *this->ptr == 0`); the scan does not
modify the tape, so reading it after the scan is the same value. -/
def step (st : Storage) (code : List Char) (s : IState) : Step :=
  match code.getD s.pos ' ' with
  | '>' =>
    .cont { s with env := { s.env with ptr := s.env.ptr + 1 }, pos := s.pos + 1 }
  | '<' =>
    .cont { s with env := { s.env with ptr := s.env.ptr - 1 }, pos := s.pos + 1 }
  | '+' =>
    if ptroutofrange s.env = true then .halt .accessViolation s
    else .cont { s with
      env := writeCell s.env ((readCell s.env + 1) % st.modulus),
      pos := s.pos + 1 }
  | '-' =>
    if ptroutofrange s.env = true then .halt .accessViolation s
    else .cont { s with
      env := writeCell s.env ((readCell s.env + (st.modulus - 1)) % st.modulus),
      pos := s.pos + 1 }
  | '.' =>
    if ptroutofrange s.env = true then .halt .accessViolation s
    else .cont { s with
      out := s.out ++ [OutEv.ch (byteOf st (readCell s.env))],
      pos := s.pos + 1 }
  | ':' =>
    if ptroutofrange s.env = true then .halt .accessViolation s
    else .cont { s with
      out := s.out ++ [OutEv.num (st.interp (readCell s.env))],
      pos := s.pos + 1 }
  | ',' =>
    if ptroutofrange s.env = true then .halt .accessViolation s
    else .cont { s with
      env := writeCell s.env (s.inp.headD 0 % st.modulus),
      inp := s.inp.tail,
      pos := s.pos + 1 }
  | '[' =>
    if ptroutofrange s.env = true then .halt .accessViolation s
    else
      match findForward code (s.pos + 1) 1 with
      | none => .halt .syntaxError s
      | some j =>
        .cont { s with pos := if readCell s.env = 0 then j + 1 else s.pos + 1 }
  | ']' =>
    match findBackward code ((s.pos : Int) - 1) 1 with
    | none => .halt .syntaxError s
    | some j => .cont { s with pos := j }
  | _ => .cont { s with pos := s.pos + 1 }

/-- Result of a whole `interpret` call: normal completion (return 0), an error
halt (return 1 after a diagnostic), or fuel exhaustion (the C loop may run
forever; the fuel only bounds how far we unroll it). -/
inductive RunRes where
  | done (s : IState)
  | halt (e : IErr) (s : IState)
  | fuelOut (s : IState)
deriving DecidableEq

/-- The `interpret` driver loop: while the current character is not the
terminator, perform one `step`; an error halt returns immediately with the
state the erring iteration received. -/
def run (st : Storage) (code : List Char) : Nat → IState → RunRes
  | 0, s => .fuelOut s
  | fuel + 1, s =>
    if s.pos < code.length then
      match step st code s with
      | .cont s2 => run st code fuel s2
      | .halt er s2 => .halt er s2
    else .done s

/-- The output of a completed (status 0) `interpret` call, `none` if the call
errored or the fuel did not suffice. -/
def runOut (st : Storage) (code : List Char) (fuel : Nat) (s : IState) :
    Option (List OutEv) :=
  match run st code fuel s with
  | .done sf => some sf.out
  | _ => none

/-!
Embedding of `xl_brainfuck_env::translate`. The method builds the target C
program with a sequence of `sprintf`/`gotoend` pairs.  The embedding produces
the same text by string concatenation and, in parallel, records each emitted
executable body statement as an abstract `CStmt` so that the emitted program
can be executed (the statement list is the body text with the purely cosmetic
indentation/lineation stripped: each `sprintf` of an executable statement in
the body loop corresponds to exactly one `CStmt`).
-/

/-- One executable statement of the emitted C program body, one constructor per
distinct statement text that the body loop of `translate` can emit:
`i++;` / `i--;` / `i += d;` / `i -= d;` / `tape[i]++;` / `tape[i]--;` /
`tape[i] += d;` / `tape[i] -= d;` / `printf("%%c", tape[i]);` /
`tape[i] = _getch();` / `while (tape[i] != 0) ... ;` and the closing brace.
`d` is the integer printed by the `%d` conversion.  The `'.'` statement is
emitted with `strcpy`, which copies the doubled percent verbatim, so the
format string of the emitted statement really is `"%%c"` (the constructor
name records this). -/
inductive CStmt where
  | incPtr
  | decPtr
  | addPtr (d : Int)
  | subPtr (d : Int)
  | incCell
  | decCell
  | addCell (d : Int)
  | subCell (d : Int)
  | printPercentC
  | readCh
  | whileOpen
  | whileClose
deriving DecidableEq

/-- The `DECLTYPE_STR` selection at the top of `translate`, keyed here by the
abstract width/signedness of the instantiated type (the 64-bit rows subsume
the `long`/`long long` rows of the source; the fallback is `"char"`). -/
def decltypeStr (st : Storage) : String :=
  if st.bits = 8 ∧ st.signed = true then "char"
  else if st.bits = 8 ∧ st.signed = false then "unsigned char"
  else if st.bits = 16 ∧ st.signed = true then "short"
  else if st.bits = 16 ∧ st.signed = false then "unsigned short"
  else if st.bits = 32 ∧ st.signed = true then "int"
  else if st.bits = 32 ∧ st.signed = false then "unsigned"
  else if st.bits = 64 ∧ st.signed = true then "long long"
  else if st.bits = 64 ∧ st.signed = false then "unsigned long long"
  else "char"

/-- `for (int i = 0; i < indentlevel; i++) sprintf(cptr, "\t")`: a run of
`indentlevel` tabs (none when the counter has gone negative, since the C for
loop then performs no iteration). -/
def indentStr (n : Int) : String := String.mk (List.replicate n.toNat '\t')

/-- Is the character one of `>` `<` (the collation class of the `'>'`/`'<'`
case)? -/
def isMove (c : Char) : Bool := c = '>' || c = '<'

/-- Is the character one of `+` `-` (the collation class of the `'+'`/`'-'`
case)? -/
def isArith (c : Char) : Bool := c = '+' || c = '-'

/-- The collation loop: `totaloffset`/`totalchange` is a `storage_t` starting
at 0 and incremented/decremented once per character of the run; the raw bit
pattern therefore evolves modulo `2 ^ bits` (the two's-complement behaviour of
the C type). -/
def collateRun (st : Storage) (inc dec : Char) (runChars : List Char) : Nat :=
  runChars.foldl
    (fun a c =>
      if c = inc then (a + 1) % st.modulus
      else if c = dec then (a + (st.modulus - 1)) % st.modulus
      else a)
    0

/-- The text of the collated cursor statement emitted for a `>`/`<` run with
accumulated raw offset `raw` (empty when the offset compares equal to zero in
the storage type); the `%d` argument is the promoted value of `totaloffset`,
respectively of `-totaloffset` (negation happens after integer promotion). -/
def moveStmtText (st : Storage) (raw : Nat) : String :=
  if 0 < st.interp raw then
    if st.interp raw = 1 then "i++;"
    else "i += " ++ toString (st.interp raw) ++ ";"
  else if st.interp raw < 0 then
    if st.interp raw = -1 then "i--;"
    else "i -= " ++ toString (-(st.interp raw)) ++ ";"
  else ""

/-- The statement-level view of `moveStmtText`. -/
def moveStmtList (st : Storage) (raw : Nat) : List CStmt :=
  if 0 < st.interp raw then
    if st.interp raw = 1 then [CStmt.incPtr] else [CStmt.addPtr (st.interp raw)]
  else if st.interp raw < 0 then
    if st.interp raw = -1 then [CStmt.decPtr] else [CStmt.subPtr (-(st.interp raw))]
  else []

/-- The text of the collated cell statement emitted for a `+`/`-` run with
accumulated raw change `raw` (empty — including the trailing newline — when
the change compares equal to zero in the storage type). -/
def arithStmtText (st : Storage) (raw : Nat) : String :=
  if 0 < st.interp raw then
    if st.interp raw = 1 then "tape[i]++;\n"
    else "tape[i] += " ++ toString (st.interp raw) ++ ";\n"
  else if st.interp raw < 0 then
    if st.interp raw = -1 then "tape[i]--;\n"
    else "tape[i] -= " ++ toString (-(st.interp raw)) ++ ";\n"
  else ""

/-- The statement-level view of `arithStmtText`. -/
def arithStmtList (st : Storage) (raw : Nat) : List CStmt :=
  if 0 < st.interp raw then
    if st.interp raw = 1 then [CStmt.incCell] else [CStmt.addCell (st.interp raw)]
  else if st.interp raw < 0 then
    if st.interp raw = -1 then [CStmt.decCell] else [CStmt.subCell (-(st.interp raw))]
  else []

/-- Result of the body loop of `translate` (and of `translate` itself): the
environment object the method was invoked on, the emitted text, the
statement-level view of the emitted body and the final `indentlevel`. -/
structure TransOut where
  env : Env
  text : String
  stmts : List CStmt
  ind : Int
deriving DecidableEq

/-- The `while (*bfptr != 0)` body loop of `translate`, one equation per
`switch (*bfptr)` case.  `prev` is the character before `bfptr` (`none` at the
start of the stream), needed by the `'+'`/`'-'` case's test
`bfptr == bfcode || (bfptr[-1] != '>' && bfptr[-1] != '<')`; `ind` is
`indentlevel`.  The environment `e` (the C++ `this`) is threaded through
unchanged, mirroring that the method only ever reads it.  The first argument
is structural-recursion fuel: every iteration consumes at least one stream
character, so any fuel of at least the stream length (as supplied by
`translateCode`) drives the loop to the terminator. -/
def goTranslate (st : Storage) (e : Env) :
    Nat → List Char → Option Char → Int → TransOut
  | _, [], _, ind => ⟨e, "", [], ind⟩
  | 0, _ :: _, _, ind => ⟨e, "", [], ind⟩
  | fuel + 1, c :: cs, prev, ind =>
    if isMove c then
      let raw := collateRun st '>' '<' (c :: cs.takeWhile isMove)
      let sep : String :=
        if isArith ((cs.dropWhile isMove).headD ' ') then " " else "\n"
      let r := goTranslate st e fuel (cs.dropWhile isMove)
        (some ((c :: cs.takeWhile isMove).getLastD c)) ind
      ⟨r.env, indentStr ind ++ moveStmtText st raw ++ sep ++ r.text,
        moveStmtList st raw ++ r.stmts, r.ind⟩
    else if isArith c then
      let raw := collateRun st '+' '-' (c :: cs.takeWhile isArith)
      let pre : String :=
        if prev = none ∨ (prev ≠ some '>' ∧ prev ≠ some '<') then indentStr ind
        else ""
      let r := goTranslate st e fuel (cs.dropWhile isArith)
        (some ((c :: cs.takeWhile isArith).getLastD c)) ind
      ⟨r.env, pre ++ arithStmtText st raw ++ r.text,
        arithStmtList st raw ++ r.stmts, r.ind⟩
    else if c = '.' then
      let r := goTranslate st e fuel cs (some c) ind
      ⟨r.env, indentStr ind ++ "printf(\"%%c\", tape[i]);\n" ++ r.text,
        CStmt.printPercentC :: r.stmts, r.ind⟩
    else if c = ',' then
      let r := goTranslate st e fuel cs (some c) ind
      ⟨r.env, indentStr ind ++ "tape[i] = _getch();\n" ++ r.text,
        CStmt.readCh :: r.stmts, r.ind⟩
    else if c = '[' then
      let r := goTranslate st e fuel cs (some c) (ind + 1)
      ⟨r.env, indentStr ind ++ "while (tape[i] != 0) \x7b\n" ++ r.text,
        CStmt.whileOpen :: r.stmts, r.ind⟩
    else if c = ']' then
      let r := goTranslate st e fuel cs (some c) (ind - 1)
      ⟨r.env, indentStr (ind - 1) ++ "\x7d\n" ++ r.text,
        CStmt.whileClose :: r.stmts, r.ind⟩
    else
      goTranslate st e fuel cs (some c) ind

/-- The fixed prologue of the emitted program: the header inclusions, `main`'s
opening, the tape allocation sized `maxaddr - minaddr + 1` and the index
declaration (`indentlevel` is 0 at the opening brace and 1 afterwards). -/
def translateHeader (st : Storage) (capacity : Int) : String :=
  "#include <stdio.h>\n" ++ "#include <stdlib.h>\n" ++ "#include <stddef.h>\n"
  ++ "#include \"conio.h\"\n" ++ "\n"
  ++ indentStr 0 ++ "int main() \x7b\n"
  ++ indentStr 1 ++ "\n"
  ++ indentStr 1 ++ decltypeStr st ++ " *tape = (" ++ decltypeStr st
  ++ " *)calloc(" ++ toString capacity ++ ", sizeof(" ++ decltypeStr st
  ++ "));\n"
  ++ indentStr 1 ++ "ptrdiff_t i = 0;\n"
  ++ "\n"

/-- The fixed epilogue: printed at the `indentlevel` reached by the body loop,
then the level is decremented once before the closing brace. -/
def translateFooter (ind : Int) : String :=
  indentStr ind ++ "\n"
  ++ indentStr ind ++ "free(tape);\n"
  ++ indentStr ind ++ "_getch();\n"
  ++ indentStr ind ++ "\n"
  ++ indentStr ind ++ "return 0;\n"
  ++ indentStr ind ++ "\n"
  ++ indentStr (ind - 1) ++ "\x7d\n"

/-- Result of a whole `translate` call: the environment object the method was
invoked on, the target text written into `ccode`, the statement-level view of
the emitted body, and the returned status. -/
structure TransResult where
  env : Env
  ccode : String
  stmts : List CStmt
  status : Nat
deriving DecidableEq

/-- `int translate(const char *bfcode, char *ccode)`: emits the prologue, runs
the body loop starting at `indentlevel = 1`, emits the epilogue (during which
`indentlevel` is decremented once more) and returns `indentlevel == 0 ? 0 : 1`.
The tape capacity printed into the allocation is
`this->maxaddr - this->minaddr + 1`, i.e. the tape length. -/
def translateCode (st : Storage) (e : Env) (bfcode : List Char) : TransResult :=
  let r := goTranslate st e bfcode.length bfcode none 1
  ⟨r.env,
    translateHeader st ((e.tape.length : Int)) ++ r.text ++ translateFooter r.ind,
    r.stmts,
    if r.ind - 1 = 0 then 0 else 1⟩

/-!
Execution model for the emitted C program.  The emitted body is straight-line
C extended with `while (tape[i] != 0)` blocks; its standard C semantics are
given as a fuel-indexed small-step executor over the flat statement list, a
closing brace transferring control back to its `while` test.  Cell arithmetic
is modulo `2 ^ bits` (the emitted tape has the same element type); any tape
access with `i` outside `[0, capacity - 1]` is undefined behaviour in C and is
modelled as the distinguished outcome `ub`.  The emitted `'.'` statement is
`printf("%%c", tape[i]);`: under C semantics `%%` is the escaped percent, so
the call prints the literal characters `%` and `c` (bytes 37 and 99) and its
`tape[i]` argument is evaluated but not converted — the access must still be
in bounds.
-/

/-- Runtime state of the emitted program: the `calloc`ed tape, the index `i`
(a `ptrdiff_t`, hence an unbounded `Int`), output and pending input. -/
structure CState where
  tape : List Nat
  i : Int
  out : List OutEv
  inp : List Nat
deriving DecidableEq

/-- Result of running the emitted program: normal completion, fuel
exhaustion, or undefined behaviour (out-of-range tape access or an unmatched
brace). -/
inductive CRes where
  | done (s : CState)
  | fuelOut (s : CState)
  | ub (s : CState)
deriving DecidableEq

/-- Forward scan (over the unscanned suffix) to the matching `whileClose` of
a `whileOpen` (the block structure of the emitted program). -/
def cmatchFAux : List CStmt → Nat → Nat → Option Nat
  | [], _, _ => none
  | c :: rest, i, depth =>
    if c = CStmt.whileOpen then cmatchFAux rest (i + 1) (depth + 1)
    else if c = CStmt.whileClose then
      if depth = 1 then some i else cmatchFAux rest (i + 1) (depth - 1)
    else cmatchFAux rest (i + 1) depth

/-- Forward scan to the matching `whileClose`, started at index `i`. -/
def cmatchF (prog : List CStmt) (i : Nat) (depth : Nat) : Option Nat :=
  cmatchFAux (prog.drop i) i depth

/-- Backward scan (index counting down) to the matching `whileOpen` of a
`whileClose`. -/
def cmatchBNat (prog : List CStmt) : Nat → Nat → Option Nat
  | 0, depth =>
    if prog.getD 0 CStmt.incPtr = CStmt.whileOpen ∧ depth = 1 then some 0
    else none
  | i + 1, depth =>
    if prog.getD (i + 1) CStmt.incPtr = CStmt.whileClose then
      cmatchBNat prog i (depth + 1)
    else if prog.getD (i + 1) CStmt.incPtr = CStmt.whileOpen then
      if depth = 1 then some (i + 1) else cmatchBNat prog i (depth - 1)
    else cmatchBNat prog i depth

/-- Backward scan to the matching `whileOpen`, started at signed index `i`. -/
def cmatchB (prog : List CStmt) (i : Int) (depth : Nat) : Option Nat :=
  if 0 ≤ i then cmatchBNat prog i.toNat depth else none

/-- Is the index `i` of the emitted program inside its tape? -/
def cInBounds (s : CState) : Bool :=
  decide (0 ≤ s.i) && decide (s.i < (s.tape.length : Int))

/-- `tape[i]` of the emitted program. -/
def cRead (s : CState) : Nat := s.tape.getD s.i.toNat 0

/-- `tape[i] = v` of the emitted program. -/
def cWrite (s : CState) (v : Nat) : CState :=
  { s with tape := s.tape.set s.i.toNat v }

/-- Fuel-indexed executor for the emitted statement list under standard C
semantics: position `pos` is the program counter into the flat list. -/
def cexec (st : Storage) (prog : List CStmt) : Nat → Nat → CState → CRes
  | 0, _, s => .fuelOut s
  | fuel + 1, pos, s =>
    if h : pos < prog.length then
      match prog.get ⟨pos, h⟩ with
      | .incPtr => cexec st prog fuel (pos + 1) { s with i := s.i + 1 }
      | .decPtr => cexec st prog fuel (pos + 1) { s with i := s.i - 1 }
      | .addPtr d => cexec st prog fuel (pos + 1) { s with i := s.i + d }
      | .subPtr d => cexec st prog fuel (pos + 1) { s with i := s.i - d }
      | .incCell =>
        if cInBounds s = true then
          cexec st prog fuel (pos + 1) (cWrite s ((cRead s + 1) % st.modulus))
        else .ub s
      | .decCell =>
        if cInBounds s = true then
          cexec st prog fuel (pos + 1)
            (cWrite s ((cRead s + (st.modulus - 1)) % st.modulus))
        else .ub s
      | .addCell d =>
        if cInBounds s = true then
          cexec st prog fuel (pos + 1)
            (cWrite s (((cRead s : Int) + d).emod (st.modulus : Int)).toNat)
        else .ub s
      | .subCell d =>
        if cInBounds s = true then
          cexec st prog fuel (pos + 1)
            (cWrite s (((cRead s : Int) - d).emod (st.modulus : Int)).toNat)
        else .ub s
      | .printPercentC =>
        if cInBounds s = true then
          cexec st prog fuel (pos + 1)
            { s with out := s.out ++ [OutEv.ch 37, OutEv.ch 99] }
        else .ub s
      | .readCh =>
        if cInBounds s = true then
          cexec st prog fuel (pos + 1)
            { (cWrite s (s.inp.headD 0 % st.modulus)) with inp := s.inp.tail }
        else .ub s
      | .whileOpen =>
        if cInBounds s = true then
          if cRead s = 0 then
            match cmatchF prog (pos + 1) 1 with
            | some j => cexec st prog fuel (j + 1) s
            | none => .ub s
          else cexec st prog fuel (pos + 1) s
        else .ub s
      | .whileClose =>
        match cmatchB prog ((pos : Int) - 1) 1 with
        | some j => cexec st prog fuel j s
        | none => .ub s
    else .done s

/-- The output of a completed run of the emitted program, `none` on undefined
behaviour or fuel exhaustion. -/
def cexecOut (st : Storage) (prog : List CStmt) (fuel : Nat) (s : CState) :
    Option (List OutEv) :=
  match cexec st prog fuel 0 s with
  | .done sf => some sf.out
  | _ => none

/-!
Embedding of the translator front-end `xlbftranslator.cpp`: after parsing the
command-line `memsize` with `strtol`, the program rejects a non-positive value
with exit status 1 before the environment is constructed.
-/

/-- The setup phase of `xlbftranslator.cpp`'s `main`: `if (memsize <= 0)
return 1;` else construct `xl_brainfuck_env(memsize)`. -/
def translatorSetup (memsize : Int) : Except Nat Env :=
  if memsize ≤ 0 then .error 1 else .ok (mkEnv memsize.toNat)


/-!
Helper lemmas shared by the claim theorems below.
-/

/-- A character failing the predicate never occurs in a `takeWhile p`
prefix, so it is not counted there. -/
lemma count_takeWhile_zero {p : Char → Bool} {a : Char} (hpa : p a = false)
    (l : List Char) : (l.takeWhile p).count a = 0 := by
  rw [List.count_eq_zero]
  intro hmem
  have hp := List.mem_takeWhile_imp hmem
  simp [hpa] at hp

/-- Dropping a `takeWhile`-style prefix of characters that all satisfy `p`
leaves the count of a character failing `p` unchanged. -/
lemma count_dropWhile_eq {p : Char → Bool} {a : Char} (hpa : p a = false)
    (l : List Char) : (l.dropWhile p).count a = l.count a := by
  conv_rhs => rw [← List.takeWhile_append_dropWhile p l]
  rw [List.count_append, count_takeWhile_zero hpa]
  omega

/-- The translator body loop never writes the environment: the threaded
`this` object comes back out untouched. -/
lemma goTranslate_env (st : Storage) (e : Env) :
    ∀ fuel rest prev ind, (goTranslate st e fuel rest prev ind).env = e := by
  intro fuel
  induction fuel with
  | zero => intro rest prev ind; cases rest <;> rfl
  | succ fuel ih =>
    intro rest prev ind
    cases rest with
    | nil => rfl
    | cons c cs =>
      unfold goTranslate
      repeat' split
      all_goals simp [ih]

/-- The `indentlevel` returned by the translator body loop is the initial
level plus the surplus of `'['` over `']'` in the consumed stream. -/
lemma goTranslate_ind (st : Storage) (e : Env) :
    ∀ fuel rest prev ind, rest.length ≤ fuel →
      (goTranslate st e fuel rest prev ind).ind =
        ind + ((rest.count '[' : Int)) - ((rest.count ']' : Int)) := by
  intro fuel
  induction fuel with
  | zero =>
    intro rest prev ind hlen
    have hnil : rest = [] := List.eq_nil_of_length_eq_zero (Nat.le_zero.mp hlen)
    subst hnil
    simp [goTranslate]
  | succ fuel ih =>
    intro rest prev ind hlen
    cases rest with
    | nil => simp [goTranslate]
    | cons c cs =>
      have hcs : cs.length ≤ fuel := by
        have := hlen
        simp only [List.length_cons] at this
        omega
      unfold goTranslate
      split
      next hmv =>
        have hc2 : c = '>' ∨ c = '<' := by simpa [isMove] using hmv
        have hdrop : (cs.dropWhile isMove).length ≤ fuel :=
          le_trans (List.IsSuffix.length_le (List.dropWhile_suffix _)) hcs
        dsimp only
        rw [ih _ _ _ hdrop,
          count_dropWhile_eq (p := isMove) (a := '[') (by decide) cs,
          count_dropWhile_eq (p := isMove) (a := ']') (by decide) cs]
        rcases hc2 with h | h <;> subst h <;>
          simp [List.count_cons]
      next hmv =>
        split
        next har =>
          have hc2 : c = '+' ∨ c = '-' := by simpa [isArith] using har
          have hdrop : (cs.dropWhile isArith).length ≤ fuel :=
            le_trans (List.IsSuffix.length_le (List.dropWhile_suffix _)) hcs
          dsimp only
          rw [ih _ _ _ hdrop,
            count_dropWhile_eq (p := isArith) (a := '[') (by decide) cs,
            count_dropWhile_eq (p := isArith) (a := ']') (by decide) cs]
          rcases hc2 with h | h <;> subst h <;>
            simp [List.count_cons]
        next har =>
          split
          next hdot =>
            subst hdot
            dsimp only
            rw [ih _ _ _ hcs]
            simp [List.count_cons]
          next hdot =>
            split
            next hcom =>
              subst hcom
              dsimp only
              rw [ih _ _ _ hcs]
              simp [List.count_cons]
            next hcom =>
              split
              next hopen =>
                subst hopen
                dsimp only
                rw [ih _ _ _ hcs]
                simp [List.count_cons]
                omega
              next hopen =>
                split
                next hclose =>
                  subst hclose
                  dsimp only
                  rw [ih _ _ _ hcs]
                  simp [List.count_cons]
                  omega
                next hclose =>
                  rw [ih _ _ _ hcs]
                  simp [List.count_cons, hopen, hclose]

/-- A successful forward scan stops on a `']'` inside the scanned suffix. -/
lemma findForwardAux_closes :
    ∀ (l : List Char) (i depth j : Nat), findForwardAux l i depth = some j →
      ∃ k, j = i + k ∧ l.getD k ' ' = ']' := by
  intro l
  induction l with
  | nil => intro i depth j h; exact absurd h (by simp [findForwardAux])
  | cons c rest ih =>
    intro i depth j h
    simp only [findForwardAux] at h
    split at h
    next hc =>
      obtain ⟨k, hk, hg⟩ := ih _ _ _ h
      exact ⟨k + 1, by omega, by simpa using hg⟩
    next hc =>
      split at h
      next hc2 =>
        split at h
        next hd =>
          cases h
          exact ⟨0, by omega, by simpa using hc2⟩
        next hd =>
          obtain ⟨k, hk, hg⟩ := ih _ _ _ h
          exact ⟨k + 1, by omega, by simpa using hg⟩
      next hc2 =>
        obtain ⟨k, hk, hg⟩ := ih _ _ _ h
        exact ⟨k + 1, by omega, by simpa using hg⟩

/-- A successful forward scan from index `i` returns the index of a `']'`. -/
lemma findForward_closes (code : List Char) (i depth j : Nat)
    (h : findForward code i depth = some j) : code.getD j ' ' = ']' := by
  obtain ⟨k, hk, hg⟩ := findForwardAux_closes _ _ _ _ h
  subst hk
  rwa [List.getD_eq_getD_get?, List.get?_drop, ← List.getD_eq_getD_get?] at hg

/-- A successful backward scan returns the index of a `'['`. -/
lemma findBackwardNat_opens (code : List Char) :
    ∀ (i depth j : Nat), findBackwardNat code i depth = some j →
      code.getD j ' ' = '[' := by
  intro i
  induction i with
  | zero =>
    intro depth j h
    simp only [findBackwardNat] at h
    split at h
    next hc =>
      cases h
      exact hc.1
    next hc => cases h
  | succ i ih =>
    intro depth j h
    simp only [findBackwardNat] at h
    split at h
    next hc => exact ih _ _ h
    next hc =>
      split at h
      next hc2 =>
        split at h
        next hd =>
          cases h
          exact hc2
        next hd => exact ih _ _ h
      next hc2 => exact ih _ _ h

/-- A successful backward scan from signed index `i` returns the index of a
`'['`. -/
lemma findBackward_opens (code : List Char) (i : Int) (depth : Nat) (j : Nat)
    (h : findBackward code i depth = some j) : code.getD j ' ' = '[' := by
  unfold findBackward at h
  split at h
  · exact findBackwardNat_opens code _ _ _ h
  · cases h

/-- When an iteration of `interpret` halts with an error, the state it hands
back is exactly the state it received: every `return 1` in the source sits
before any mutation of the iteration. -/
lemma step_halt_state (st : Storage) (code : List Char) (s s2 : IState)
    (er : IErr) (h : step st code s = .halt er s2) : s2 = s := by
  unfold step at h
  repeat' split at h
  all_goals cases h <;> rfl

/-!
Claim theorems.
-/

/-- C3: at a `'['` with the cursor in bounds, the interpreter uses the forward
bracket scan; if the current cell is 0 it jumps to the position just past the
matching `']'` (an index holding `']'`), otherwise it advances one position;
it halts with an access violation when the cursor is out of range, and with a
syntax error when the scan finds no match. -/
theorem c3_interpret_open_bracket (st : Storage) (code : List Char)
    (s : IState) (h : code.getD s.pos ' ' = '[') :
    (ptroutofrange s.env = true → step st code s = .halt .accessViolation s) ∧
    (ptroutofrange s.env = false → findForward code (s.pos + 1) 1 = none →
      step st code s = .halt .syntaxError s) ∧
    (∀ j, ptroutofrange s.env = false →
      findForward code (s.pos + 1) 1 = some j →
      code.getD j ' ' = ']' ∧
      step st code s =
        .cont { s with pos := if readCell s.env = 0 then j + 1 else s.pos + 1 }) := by
  refine ⟨?_, ?_, ?_⟩
  · intro hoor
    unfold step
    rw [h]
    simp [hoor]
  · intro hoor hff
    unfold step
    rw [h]
    simp [hoor, hff]
  · intro j hoor hff
    refine ⟨findForward_closes code (s.pos + 1) 1 j hff, ?_⟩
    unfold step
    rw [h]
    simp [hoor, hff]

/-- Witness for C3: on the stream `[]` with a fresh one-cell tape (cell 0,
cursor in bounds) the interpreter jumps past the matching `']'` to position
2. -/
theorem c3_interpret_open_bracket_witness :
    step stU8 ['[', ']'] ⟨mkEnv 1, 0, [], []⟩ = .cont ⟨mkEnv 1, 2, [], []⟩ := by
  have h := (c3_interpret_open_bracket stU8 ['[', ']'] ⟨mkEnv 1, 0, [], []⟩
    (by decide)).2.2 1 (by decide) (by decide)
  simpa using h.2

/-- C6: at a `']'` the interpreter performs the backward bracket scan (depth
starting at 1, `']'` incrementing, `'['` decrementing) and jumps to the
matching `'['` (an index holding `'['`, so the loop check re-reads the cell on
the next step); if the scan reaches the start of the stream without a match it
halts with a syntax error.  No bounds check is involved. -/
theorem c6_interpret_close_bracket (st : Storage) (code : List Char)
    (s : IState) (h : code.getD s.pos ' ' = ']') :
    (findBackward code ((s.pos : Int) - 1) 1 = none →
      step st code s = .halt .syntaxError s) ∧
    (∀ j, findBackward code ((s.pos : Int) - 1) 1 = some j →
      code.getD j ' ' = '[' ∧ step st code s = .cont { s with pos := j }) := by
  constructor
  · intro hfb
    unfold step
    rw [h]
    simp [hfb]
  · intro j hfb
    refine ⟨findBackward_opens code _ 1 j hfb, ?_⟩
    unfold step
    rw [h]
    simp [hfb]

/-- Witness for C6: on the stream `[]` at the `']'` (position 1) the
interpreter jumps back to the `'['` at position 0; on the stream `]` at
position 0 it halts with a syntax error. -/
theorem c6_interpret_close_bracket_witness :
    step stU8 ['[', ']'] ⟨⟨[5], 0⟩, 1, [], []⟩ = .cont ⟨⟨[5], 0⟩, 0, [], []⟩ ∧
    step stU8 [']'] ⟨mkEnv 1, 0, [], []⟩ =
      .halt .syntaxError ⟨mkEnv 1, 0, [], []⟩ := by
  constructor
  · have h := (c6_interpret_close_bracket stU8 ['[', ']'] ⟨⟨[5], 0⟩, 1, [], []⟩
      (by decide)).2 0 (by decide)
    simpa using h.2
  · exact (c6_interpret_close_bracket stU8 [']'] ⟨mkEnv 1, 0, [], []⟩
      (by decide)).1 (by decide)

/-- C7: bounds discipline of one interpreter step, at any position inside the
stream.  (1) `'>'`/`'<'` never fail.  (2) For each of `'+' '-' '.' ':' ','
'['` — the instructions that read or write the cell — the step halts with an
access violation exactly when the cursor is out of range.  (3) From an
out-of-range cursor, any continuing step leaves tape, output and input
untouched (together with `step_halt_state` for the halting steps, no cell is
ever read or written while the cursor is outside `[0, N-1]`; a whole
`interpret` call is a chain of such steps). -/
theorem c7_bounds_checked_access (st : Storage) (code : List Char)
    (s : IState) (h : s.pos < code.length) :
    ((code.get ⟨s.pos, h⟩ = '>' ∨ code.get ⟨s.pos, h⟩ = '<') →
      ∃ s2, step st code s = .cont s2) ∧
    ((code.get ⟨s.pos, h⟩ = '+' ∨ code.get ⟨s.pos, h⟩ = '-' ∨
      code.get ⟨s.pos, h⟩ = '.' ∨ code.get ⟨s.pos, h⟩ = ':' ∨
      code.get ⟨s.pos, h⟩ = ',' ∨ code.get ⟨s.pos, h⟩ = '[') →
      (step st code s = .halt .accessViolation s ↔
        ptroutofrange s.env = true)) ∧
    (ptroutofrange s.env = true →
      ∀ s2, step st code s = .cont s2 →
        s2.env.tape = s.env.tape ∧ s2.out = s.out ∧ s2.inp = s.inp) := by
  have hd : code.getD s.pos ' ' = code.get ⟨s.pos, h⟩ := List.getD_eq_get _ _ h
  refine ⟨?_, ?_, ?_⟩
  · rintro (hc | hc) <;> rw [← hd] at hc <;> unfold step <;> rw [hc] <;> simp
  · rintro (hc | hc | hc | hc | hc | hc) <;> rw [← hd] at hc <;>
      unfold step <;> rw [hc] <;>
      cases hb : ptroutofrange s.env <;>
      rcases hff : findForward code (s.pos + 1) 1 with _ | j <;>
      simp [hb, hff]
  · intro hoor s2 hstep
    unfold step at hstep
    repeat' split at hstep
    all_goals first
      | (cases hstep; exact ⟨rfl, rfl, rfl⟩)
      | simp_all

/-- C8: whenever a whole `interpret` run halts with an access violation, the
state handed back is a fixed point of the erring step: the instruction that
triggered the violation received exactly the returned state, so it modified
neither any tape cell nor the cursor — the environment on return is the one
reached after the last successfully executed instruction (the bounds check
precedes every mutation). -/
theorem c8_access_violation_preserves_state (st : Storage) (code : List Char)
    (fuel : Nat) (s0 sf : IState)
    (h : run st code fuel s0 = .halt .accessViolation sf) :
    step st code sf = .halt .accessViolation sf := by
  induction fuel generalizing s0 with
  | zero => cases h
  | succ fuel ih =>
    unfold run at h
    split at h
    · split at h
      next s2 hstep => exact ih _ h
      next er s2 hstep =>
        cases h
        have heq := step_halt_state st code s0 sf _ hstep
        rw [heq] at hstep ⊢
        exact hstep
    · cases h

/-- Witness for C8: the stream `<+` moves the cursor out of range and then
attempts an increment; the run halts with an access violation in the state
with cursor −1, and that state is indeed the fixed point of the erring
step. -/
theorem c8_access_violation_preserves_state_witness :
    step stU8 ['<', '+'] ⟨⟨[0], -1⟩, 1, [], []⟩ =
      .halt .accessViolation ⟨⟨[0], -1⟩, 1, [], []⟩ :=
  c8_access_violation_preserves_state stU8 ['<', '+'] 5 ⟨mkEnv 1, 0, [], []⟩
    ⟨⟨[0], -1⟩, 1, [], []⟩ (by decide)

/-- C4: the translator front-end (`xlbftranslator.cpp`) rejects a parsed
memory size that is not a positive integer with exit status 1, before any
environment is constructed. -/
theorem c4_setup_rejects_nonpositive_capacity (memsize : Int)
    (h : memsize ≤ 0) : translatorSetup memsize = .error 1 := by
  simp [translatorSetup, h]

/-- Witness for C4: memory size −3 (and likewise 0) is rejected at setup. -/
theorem c4_setup_rejects_nonpositive_capacity_witness :
    (-3 : Int) ≤ 0 ∧ translatorSetup (-3) = .error 1 :=
  ⟨by decide, c4_setup_rejects_nonpositive_capacity (-3) (by decide)⟩

/-- C9: after `reset()`, every one of the cells reads 0, the cursor addresses
index 0, and the cell count is unchanged — for every capacity N ≥ 1 and every
prior environment state. -/
theorem c9_reset_zeroes_and_rewinds (e : Env) (hN : 1 ≤ e.tape.length) :
    (∀ i, i < (reset e).tape.length → (reset e).tape.getD i 1 = 0) ∧
    (reset e).ptr = 0 ∧ (reset e).tape.length = e.tape.length := by
  refine ⟨?_, rfl, by simp [reset]⟩
  intro i hi
  simp only [reset, List.length_map] at hi
  simp [reset, List.getD_eq_getElem?_getD, List.getElem?_replicate, hi]

/-- Witness for C9: resetting a dirty two-cell environment (cells 3 and 4,
cursor at 1) zeroes the first cell, rewinds the cursor and keeps the cell
count. -/
theorem c9_reset_zeroes_and_rewinds_witness :
    (reset ⟨[3, 4], 1⟩).tape.getD 0 1 = 0 ∧
    (reset ⟨[3, 4], 1⟩).ptr = 0 ∧
    (reset ⟨[3, 4], 1⟩).tape.length = ([3, 4] : List Nat).length :=
  ⟨(c9_reset_zeroes_and_rewinds ⟨[3, 4], 1⟩ (by decide)).1 0 (by decide),
    (c9_reset_zeroes_and_rewinds ⟨[3, 4], 1⟩ (by decide)).2.1,
    (c9_reset_zeroes_and_rewinds ⟨[3, 4], 1⟩ (by decide)).2.2⟩

/-- C10: a `translate` call leaves the environment's runtime state unchanged:
every tape cell and the cursor position are exactly the same after the call
as before it (the method only reads the capacity). -/
theorem c10_translate_preserves_env (st : Storage) (e : Env)
    (bfcode : List Char) :
    (translateCode st e bfcode).env.tape = e.tape ∧
    (translateCode st e bfcode).env.ptr = e.ptr := by
  have hg := goTranslate_env st e bfcode.length bfcode none 1
  unfold translateCode
  dsimp only
  rw [hg]
  exact ⟨rfl, rfl⟩

/-- C5: `translate` returns a failure (nonzero) status exactly when the
residual nesting-depth counter (the final `indentlevel`, decremented back for
the epilogue) is nonzero after the whole stream is consumed — equivalently,
exactly when the number of `'['` differs from the number of `']'` in the
stream.  The verdict depends only on the two totals, so it is determined only
by the full stream, never eagerly. -/
theorem c5_translate_status_iff_bracket_counts (st : Storage) (e : Env)
    (bfcode : List Char) :
    ((translateCode st e bfcode).status ≠ 0 ↔
      (goTranslate st e bfcode.length bfcode none 1).ind - 1 ≠ 0) ∧
    ((translateCode st e bfcode).status ≠ 0 ↔
      bfcode.count '[' ≠ bfcode.count ']') := by
  have hind := goTranslate_ind st e bfcode.length bfcode none 1 le_rfl
  constructor
  · unfold translateCode
    dsimp only
    split
    next hz => simp [hz]
    next hz => simp [hz]
  · unfold translateCode
    dsimp only
    rw [hind]
    split
    next hz =>
      simp only [ne_eq, not_true_eq_false, false_iff, Decidable.not_not]
      omega
    next hz =>
      simp only [ne_eq, one_ne_zero, not_false_eq_true, true_iff]
      omega

/-- C1: counterexample to the round-trip property.  The `'.'` case of
`translate` emits its statement with `strcpy`, which performs no format
expansion and copies the doubled percent verbatim: the generated program
contains `printf("%%c", tape[i]);`, which at runtime prints the literal text
`%c` (bytes 37 and 99) and ignores the cell value.  Instantiated at
`unsigned char` with capacity 1, the balanced, extension-free stream `.`
interprets to the single byte 0, but the emitted program runs (entirely
within bounds, under the standard C semantics of the emitted statements) to
the two bytes `%` `c`.  The outputs are not byte-for-byte identical, refuting
the claim as stated — at every width, for any stream containing `'.'` — while
the header's own description promises that `translate` produces the
corresponding C code. -/
theorem c1_translate_roundtrip_fails :
    (['.'].count '[' = ['.'].count ']') ∧
    (∀ c ∈ ['.'],
      c = '>' ∨ c = '<' ∨ c = '+' ∨ c = '-' ∨
      c = '.' ∨ c = ',' ∨ c = '[' ∨ c = ']') ∧
    runOut stU8 ['.'] 5 ⟨mkEnv 1, 0, [], []⟩ = some [OutEv.ch 0] ∧
    (translateCode stU8 (mkEnv 1) ['.']).stmts = [CStmt.printPercentC] ∧
    cexecOut stU8 (translateCode stU8 (mkEnv 1) ['.']).stmts 5
      ⟨List.replicate 1 0, 0, [], []⟩ = some [OutEv.ch 37, OutEv.ch 99] ∧
    some [OutEv.ch 0] ≠ some [OutEv.ch 37, OutEv.ch 99] := by
  refine ⟨by decide, by decide, by decide, by decide, by decide, by decide⟩

/-- C2: counterexample to the semantic transparency of run collation.  At
`unsigned char` width, the run consisting of the single character `'<'`
(k = 1, exact integer sum −1) is collated into the statement `i += 255;`
(the accumulator `0 - 1` wraps to 255 in the storage type), whose net effect
on the emitted program's cursor is +255, not −1: collation is not
semantically transparent for every configured cell width.  The claim is
right about the intent — the source calls collation an optimization — and the
accumulation in `storage_t` is the slip. -/
theorem c2_collation_not_transparent_u8 :
    (translateCode stU8 (mkEnv 1) ['<']).stmts = [CStmt.addPtr 255] ∧
    cexec stU8 [CStmt.addPtr 255] 5 0 ⟨[0], 0, [], []⟩ =
      .done ⟨[0], 255, [], []⟩ ∧
    (255 : Int) ≠ (0 : Int) + (-1 : Int) := by
  refine ⟨by decide, by decide, by decide⟩

/-- Witness for C7: at the `'+'` of the one-character stream `+` with a fresh
in-range one-cell environment, the access-violation characterization
instantiates concretely: the step halts with an access violation exactly if
the cursor is out of range (here it is not, and the step continues). -/
theorem c7_bounds_checked_access_witness :
    (step stU8 ['+'] ⟨mkEnv 1, 0, [], []⟩ =
        .halt .accessViolation ⟨mkEnv 1, 0, [], []⟩ ↔
      ptroutofrange (mkEnv 1) = true) :=
  (c7_bounds_checked_access stU8 ['+'] ⟨mkEnv 1, 0, [], []⟩ (by decide)).2.1
    (Or.inl (by decide))
